import Mathlib

/-!
Shallow embedding of the SonjayOS semantic-search engine
(src/ai/embeddings/semantic_search.py) together with theorems that check
the design specification's claims against it.  Python strings are modelled
as `List Char`, raw bytes as `List Nat`, float values as exact rationals
(with an explicit marker where the code divides by zero and produces NaN),
and the sqlite store as lists of rows.  External collaborators (the
embedding model provider, the md5 digest, the non-final text decoders) are
parameters of the embedding.
-/

/-- Python slice `s[a:b]` (step 1): negative indices count from the end and
both bounds are clamped into range. -/
def pySlice (s : List Char) (a b : Int) : List Char :=
  let n : Int := s.length
  let a2 : Int := if a < 0 then max (n + a) 0 else min a n
  let b2 : Int := if b < 0 then max (n + b) 0 else min b n
  (s.take b2.toNat).drop a2.toNat

/-- Python `s.rfind(c)`: highest index at which `c` occurs, or `-1`. -/
def pyRfind (s : List Char) (c : Char) : Int :=
  match s.reverse.findIdx? (fun x => x == c) with
  | none => -1
  | some i => (s.length : Int) - 1 - (i : Int)

/-- Whitespace characters removed by Python `str.strip()` (ASCII subset). -/
def isPySpace (c : Char) : Bool :=
  c == ' ' || c == '\t' || c == '\n' || c == '\r' || c == Char.ofNat 11 || c == Char.ofNat 12

/-- Python `str.strip()`. -/
def pyStrip (s : List Char) : List Char :=
  ((s.dropWhile isPySpace).reverse.dropWhile isPySpace).reverse

/-- The local constant `chunk_size = 1000` of `_split_content` (the method
ignores the configuration and hard-codes its parameters). -/
def chunkSizeConst : Int := 1000

/-- The local constant `overlap_size = 200` of `_split_content`. -/
def overlapSizeConst : Int := 200

/-- One iteration of the `while` loop body of `_split_content`: given the
current `start` it returns the next value of `end` and the chunk string that
gets appended (before stripping), including the search backwards for a
period or newline past the window midpoint. -/
def splitStep (content : List Char) (start : Int) : Int × List Char :=
  let e : Int := min (start + chunkSizeConst) (content.length : Int)
  let chunk := pySlice content start e
  if e < (content.length : Int) then
    let sp : Int := max (pyRfind chunk '.') (pyRfind chunk '\n')
    if sp > start + chunkSizeConst / 2 then
      (start + sp + 1, pySlice chunk 0 (sp + 1))
    else (e, chunk)
  else (e, chunk)

/-- The `while start < len(content)` loop of `_split_content`, with explicit
fuel; `none` means the fuel ran out before the loop exited.  On exit the code
returns the accumulated chunks filtered to those non-empty after stripping. -/
def splitLoop (content : List Char) (fuel : Nat) (start : Int)
    (chunks : List (List Char)) : Option (List (List Char)) :=
  match fuel with
  | 0 => none
  | Nat.succ f =>
    if start < (content.length : Int) then
      splitLoop content f ((splitStep content start).1 - overlapSizeConst)
        (chunks ++ [pyStrip (splitStep content start).2])
    else
      some (chunks.filter (fun c => !(pyStrip c).isEmpty))

/-- `_split_content(content)` run with the given amount of fuel. -/
def splitContentFuel (fuel : Nat) (content : List Char) : Option (List (List Char)) :=
  splitLoop content fuel 0 []

/-- Example text used by the specification for the chunking invariant. -/
def exampleSpecText : List Char := "The quick brown fox. The fox runs.".data

/-- A non-empty text strictly shorter than `maxChunkSize = 1000`. -/
def shortSampleText : List Char := "hello world".data

/-- A row of the sqlite `files` table.  `id` is the AUTOINCREMENT primary
key; `filePath` is UNIQUE; `fileHash` is the md5 of the raw bytes and
`contentHash` the md5 of the decoded text. -/
structure FileRow where
  id : Nat
  filePath : String
  fileHash : String
  fileType : String
  fileSize : Nat
  lastModified : ℚ
  contentHash : String
deriving DecidableEq

/-- A row of the sqlite `embeddings` table: `fileId` references `files.id`
(declared as a FOREIGN KEY, which sqlite does not enforce by default and
which carries no ON DELETE CASCADE). -/
structure ChunkRow where
  fileId : Nat
  chunkIndex : Nat
  content : List Char
  embedding : List ℚ
deriving DecidableEq

/-- The persisted store: both tables in rowid (insertion) order plus the
next AUTOINCREMENT value for `files.id`. -/
structure Store where
  files : List FileRow
  embeddings : List ChunkRow
  nextFileId : Nat
deriving DecidableEq

/-- A fresh database as created by `_init_database`. -/
def emptyStore : Store := Store.mk [] [] 1

/-- `_save_file_embeddings`: DELETE the old `files` row for the path, INSERT
the new file row, then INSERT one `embeddings` row per `(chunk, embedding)`
pair of `zip(chunks, embeddings)` (which truncates to the shorter list).
Note that the DELETE touches only the `files` table: the old rows of the
`embeddings` table are left in place. -/
def saveFileEmbeddings (st : Store) (filePath fileHash fileType : String)
    (fileSize : Nat) (lastModified : ℚ) (contentHash : String)
    (chunks : List (List Char)) (embeddings : List (List ℚ)) : Store :=
  let remaining := st.files.filter (fun f => f.filePath != filePath)
  let fid := st.nextFileId
  let fileRow := FileRow.mk fid filePath fileHash fileType fileSize lastModified contentHash
  let newChunks := (chunks.zip embeddings).enum.map
    (fun p => ChunkRow.mk fid p.1 p.2.1 p.2.2)
  Store.mk (remaining ++ [fileRow]) (st.embeddings ++ newChunks) (fid + 1)

/-- `_is_file_unchanged`: fetch the stored `file_hash` for the path and
compare; an absent row (`fetchone()` returning `None`, which is falsy) means
"not unchanged". -/
def isFileUnchanged (st : Store) (filePath fileHash : String) : Bool :=
  match st.files.find? (fun f => f.filePath == filePath) with
  | none => false
  | some r => r.fileHash == fileHash

/-- The `SELECT ... FROM files f JOIN embeddings e ON f.id = e.file_id` scan
used by `search`: files in rowid order, each file's embedding rows in
insertion order. -/
def joinRows (st : Store) : List (FileRow × ChunkRow) :=
  st.files.flatMap (fun f => (st.embeddings.filter (fun e => e.fileId == f.id)).map
    (fun e => (f, e)))

/-- An `embeddings` row whose `file_id` matches no existing `files` row. -/
def orphanExists (st : Store) : Bool :=
  st.embeddings.any (fun e => st.files.all (fun f => f.id != e.fileId))

/-- The chunk rows currently reachable for `path` through the files table
(the set a reader observes for that file). -/
def chunksOfPath (st : Store) (path : String) : List ChunkRow :=
  (joinRows st).filterMap (fun r => if r.1.filePath == path then some r.2 else none)

/-- The batch slices `chunks[i:i+batch_size]` of `_generate_embeddings`,
each sent to the provider; `none` as soon as one provider call raises.
For a positive batch size, `cs.drop (bs - 1)` below equals dropping `bs`
elements of `c :: cs`, mirroring `range(0, len(chunks), batch_size)`. -/
def encodeBatches (encode : List (List Char) → Option (List (List ℚ)))
    (bs : Nat) : List (List Char) → Option (List (List ℚ))
  | [] => some []
  | c :: cs =>
    match encode ((c :: cs).take bs) with
    | none => none
    | some b =>
      match encodeBatches encode bs (cs.drop (bs - 1)) with
      | none => none
      | some rest => some (b ++ rest)
termination_by l => l.length
decreasing_by simp only [List.length_drop, List.length_cons]; omega

/-- `_generate_embeddings(chunks)`: batches the chunk list through the
provider; any exception (including a zero batch size making `range` raise)
is caught and the function returns the empty list. -/
def generateEmbeddings (encode : List (List Char) → Option (List (List ℚ)))
    (bs : Nat) (chunks : List (List Char)) : List (List ℚ) :=
  if bs = 0 then []
  else
    match encodeBatches encode bs chunks with
    | none => []
    | some embs => embs

/-- Decoding with latin-1, which maps every byte 0..255 to a character and
therefore never raises `UnicodeDecodeError`. -/
def latin1Decode (b : List Nat) : List Char := b.map (fun v => Char.ofNat v)

/-- The `for encoding in encodings` loop of `_read_file_content`: first
decoder that succeeds wins; `none` is the fall-through branch that logs
"unable to read file" and returns the empty string. -/
def readContentLoop : List (List Nat → Option (List Char)) → List Nat → Option (List Char)
  | [], _ => none
  | d :: ds, b =>
    match d b with
    | some s => some s
    | none => readContentLoop ds b

/-- `_read_file_content` over the decoded-byte view: the fallback chain is
utf-8, gbk, gb2312 (abstract decoders, since only their success or failure
matters) and finally the total latin-1 decoder. -/
def readFileContentM (d1 d2 d3 : List Nat → Option (List Char)) (b : List Nat) :
    Option (List Char) :=
  readContentLoop [d1, d2, d3, fun bb => some (latin1Decode bb)] b

/-- The string actually returned by `_read_file_content` (empty on the
fall-through branch). -/
def readFileContentStr (d1 d2 d3 : List Nat → Option (List Char)) (b : List Nat) :
    List Char :=
  (readFileContentM d1 d2 d3 b).getD []

/-- The external collaborators of the indexing pipeline: the embedding
provider (`self.model.encode`, `none` = the call raises), the configured
batch size, the md5 digest of the decoded text, and the three non-final
decoders of the encoding fallback chain. -/
structure IndexEnv where
  encode : List (List Char) → Option (List (List ℚ))
  batchSize : Nat
  contentMd5 : List Char → String
  dUtf8 : List Nat → Option (List Char)
  dGbk : List Nat → Option (List Char)
  dGb2312 : List Nat → Option (List Char)

/-- A file presented to `_index_file`: its path, the md5 of its raw bytes
(computed by `_calculate_file_hash` before anything else), the stat-derived
metadata, and the raw bytes themselves. -/
structure FileInput where
  filePath : String
  fileHash : String
  fileType : String
  fileSize : Nat
  lastModified : ℚ
  fileBytes : List Nat

/-- The tail of `_index_file` after chunking succeeded: generate embeddings
(failures swallowed into an empty list) and save; the method then returns
`True`, which `index_directory` counts as an indexed file. -/
def indexFileFromChunks (env : IndexEnv) (st : Store) (fi : FileInput)
    (content : List Char) (chunks : List (List Char)) : Bool × Store :=
  (true, saveFileEmbeddings st fi.filePath fi.fileHash fi.fileType fi.fileSize
    fi.lastModified (env.contentMd5 content) chunks
    (generateEmbeddings env.encode env.batchSize chunks))

/-- `_index_file`: hash gate first, then decode, then the empty-content
gate, then chunking (with fuel: `none` = the chunking loop still running),
then embeddings and save.  `false` is counted as skipped by
`index_directory`, `true` as indexed. -/
def indexFile (env : IndexEnv) (st : Store) (fi : FileInput) (fuel : Nat) :
    Option (Bool × Store) :=
  if isFileUnchanged st fi.filePath fi.fileHash then some (false, st)
  else
    let content := readFileContentStr env.dUtf8 env.dGbk env.dGb2312 fi.fileBytes
    if content = [] then some (false, st)
    else
      match splitContentFuel fuel content with
      | none => none
      | some chunks => some (indexFileFromChunks env st fi content chunks)

/-- The value `np.dot(q, v) / (np.linalg.norm(q) * np.linalg.norm(v))` when
the denominator is non-zero, represented exactly: the real number is
`d / Real.sqrt ab` with `ab` the product of the two squared norms, so the
pair `(d, ab)` with `0 < ab` determines it and all comparisons on it are
decidable by sign analysis and squaring. -/
structure CosVal where
  d : ℚ
  ab : ℚ
  abPos : 0 < ab

instance : DecidableEq CosVal := fun x y =>
  decidable_of_iff (x.d = y.d ∧ x.ab = y.ab) (by cases x; cases y; simp)

/-- Dot product of two vectors (`np.dot` on equal-length 1-D arrays). -/
def dotQ (q v : List ℚ) : ℚ := (List.zipWith (fun a b => a * b) q v).sum

/-- Squared Euclidean norm, `np.linalg.norm(v) ** 2`. -/
def normSq (v : List ℚ) : ℚ := (v.map (fun a => a * a)).sum

lemma normSq_nonneg (v : List ℚ) : 0 ≤ normSq v := by
  apply List.sum_nonneg
  intro x hx
  rw [List.mem_map] at hx
  obtain ⟨a, _, rfl⟩ := hx
  exact mul_self_nonneg a

/-- The similarity computed for one row of the scan.  When either vector has
zero norm the denominator is `0.0` and the numerator is `0.0` as well (a
zero vector has zero dot product with anything), so the float division
yields NaN — represented as `none`. -/
def cosineSim (q v : List ℚ) : Option CosVal :=
  if h : normSq q * normSq v = 0 then none
  else
    some (CosVal.mk (dotQ q v) (normSq q * normSq v)
      (lt_of_le_of_ne (mul_nonneg (normSq_nonneg q) (normSq_nonneg v)) (Ne.symm h)))

/-- Decides `x.d / sqrt x.ab ≤ y.d / sqrt y.ab` by comparing signs and then
squares (valid because both `ab` components are positive). -/
def simLeB (x y : CosVal) : Bool :=
  if 0 ≤ x.d then
    if 0 ≤ y.d then decide (x.d * x.d * y.ab ≤ y.d * y.d * x.ab) else false
  else
    if 0 ≤ y.d then true else decide (y.d * y.d * x.ab ≤ x.d * x.d * y.ab)

/-- Decides the float comparison `similarity >= min_similarity`, i.e.
`x.d / sqrt x.ab ≥ t`, by sign analysis and squaring. -/
def simGeQ (x : CosVal) (t : ℚ) : Bool :=
  if 0 ≤ x.d then
    if t ≤ 0 then true else decide (t * t * x.ab ≤ x.d * x.d)
  else
    if 0 < t then false else decide (x.d * x.d ≤ t * t * x.ab)

/-- A `SearchResult` record produced by `search`. -/
structure SearchR where
  filePath : String
  score : CosVal
  snippet : List Char
  fileType : String
  lastModified : ℚ
  fileSize : Nat
  chunkIndex : Nat
deriving DecidableEq

/-- The snippet `content[:200] + "..." if len(content) > 200 else content`. -/
def mkSnippet (content : List Char) : List Char :=
  if 200 < content.length then content.take 200 ++ ('.' :: '.' :: '.' :: []) else content

/-- The per-row body of the scan loop in `search`: compute the similarity
and append a `SearchResult` when `similarity >= min_similarity`.  A NaN
similarity (zero-norm vector) fails that float comparison, so no result is
appended for it. -/
def keepRow (q : List ℚ) (t : ℚ) (r : FileRow × ChunkRow) : Option SearchR :=
  match cosineSim q r.2.embedding with
  | none => none
  | some s =>
    if simGeQ s t then
      some (SearchR.mk r.1.filePath s (mkSnippet r.2.content) r.1.fileType
        r.1.lastModified r.1.fileSize r.2.chunkIndex)
    else none

/-- Results ordered by non-increasing similarity score. -/
def srGe (a b : SearchR) : Prop := simLeB b.score a.score = true

instance : DecidableRel srGe := fun a b =>
  inferInstanceAs (Decidable (simLeB b.score a.score = true))

/-- `results.sort(key=lambda x: x.similarity_score, reverse=True)`:
Python's sort is stable, so this is the stable descending sort, which is
exactly insertion sort over the non-strict order `srGe` (the sorted stable
permutation of a list is unique). -/
def sortDesc (l : List SearchR) : List SearchR := List.insertionSort srGe l

/-- The ranking part of `search` given the scanned rows: filter by the
similarity threshold in scan order, sort by descending score, truncate. -/
def searchFromRows (q : List ℚ) (rows : List (FileRow × ChunkRow)) (lim : Nat)
    (t : ℚ) : List SearchR :=
  (sortDesc (rows.filterMap (keepRow q t))).take lim

/-- `search(query, limit, min_similarity)` with the query already encoded
to the vector `q`. -/
def searchModel (q : List ℚ) (st : Store) (lim : Nat) (t : ℚ) : List SearchR :=
  searchFromRows q (joinRows st) lim t

/-- The similarity values computed row by row inside the scan loop of
`search` (`none` = the division produced NaN). -/
def rowSims (q : List ℚ) (st : Store) : List (Option CosVal) :=
  (joinRows st).map (fun r => cosineSim q r.2.embedding)

/-- A JSON value stored into a config attribute (Python does not check the
type on `setattr`). -/
inductive ConfigVal where
  | s (v : String)
  | n (v : Int)
deriving DecidableEq

/-- The `EmbeddingConfig` dataclass: its only attributes are the five below
(`chunk_size` and `overlap_size` are not attributes of the dataclass). -/
structure EmbeddingConfig where
  modelName : ConfigVal
  batchSize : ConfigVal
  maxLength : ConfigVal
  device : ConfigVal
  cacheSize : ConfigVal
deriving DecidableEq

/-- The dataclass defaults. -/
def defaultEmbeddingConfig : EmbeddingConfig :=
  EmbeddingConfig.mk
    (ConfigVal.s "sentence-transformers/paraphrase-multilingual-MiniLM-L12-v2")
    (ConfigVal.n 32) (ConfigVal.n 512) (ConfigVal.s "auto") (ConfigVal.n 10000)

/-- `hasattr(self.config, key)` for the `EmbeddingConfig` dataclass. -/
def isConfigAttr (k : String) : Bool :=
  k == "model_name" || k == "batch_size" || k == "max_length" ||
    k == "device" || k == "cache_size"

/-- The `if hasattr(self.config, key): setattr(self.config, key, value)`
body of the `_load_config` loop: a key that is not an attribute is silently
dropped, and no value is ever validated. -/
def setConfigAttr (cfg : EmbeddingConfig) (kv : String × ConfigVal) : EmbeddingConfig :=
  if kv.1 == "model_name" then
    EmbeddingConfig.mk kv.2 cfg.batchSize cfg.maxLength cfg.device cfg.cacheSize
  else if kv.1 == "batch_size" then
    EmbeddingConfig.mk cfg.modelName kv.2 cfg.maxLength cfg.device cfg.cacheSize
  else if kv.1 == "max_length" then
    EmbeddingConfig.mk cfg.modelName cfg.batchSize kv.2 cfg.device cfg.cacheSize
  else if kv.1 == "device" then
    EmbeddingConfig.mk cfg.modelName cfg.batchSize cfg.maxLength kv.2 cfg.cacheSize
  else if kv.1 == "cache_size" then
    EmbeddingConfig.mk cfg.modelName cfg.batchSize cfg.maxLength cfg.device kv.2
  else cfg

/-- `_load_config` applied to the key/value pairs of the user's JSON file
(the function never raises and never rejects a configuration; a missing or
unparsable file just keeps the defaults). -/
def applyUserConfig (cfg : EmbeddingConfig) (user : List (String × ConfigVal)) :
    EmbeddingConfig :=
  user.foldl setConfigAttr cfg

/-- An indexing environment whose provider call always fails. -/
def c2FailEnv : IndexEnv :=
  IndexEnv.mk (fun _ => none) 32 (fun _ => "md5") (fun _ => none) (fun _ => none)
    (fun _ => none)

/-- A store holding one previously indexed version of `a.txt` with one
stored chunk. -/
def c2PriorStore : Store :=
  saveFileEmbeddings emptyStore "a.txt" "h1" ".txt" 3 0 "c1" [('x' :: [])] [((1 : ℚ) :: [])]

/-- The changed version of `a.txt` being re-indexed. -/
def c2NewFile : FileInput := FileInput.mk "a.txt" "h2" ".txt" 4 1 []

/-- Store after indexing `b.md` once. -/
def c3Store1 : Store :=
  saveFileEmbeddings emptyStore "b.md" "h1" ".md" 2 0 "c1" [('x' :: [])] [((1 : ℚ) :: [])]

/-- Store after re-indexing `b.md` with changed content (second upsert of
the same path). -/
def c3Store2 : Store :=
  saveFileEmbeddings c3Store1 "b.md" "h2" ".md" 2 1 "c2" [('y' :: [])] [((2 : ℚ) :: [])]

/-- A store holding a single chunk whose stored vector is the zero vector. -/
def c4Store : Store :=
  saveFileEmbeddings emptyStore "z.txt" "h" ".txt" 1 0 "c"
    [('z' :: [])] [((0 : ℚ) :: (0 : ℚ) :: [])]

/-- Two files with identical unit scores, indexed in the order `b.txt`
then `a.txt` (so the scan returns `b.txt` rows first). -/
def c5Store : Store :=
  saveFileEmbeddings
    (saveFileEmbeddings emptyStore "b.txt" "hb" ".txt" 1 0 "cb" [('b' :: [])] [((1 : ℚ) :: [])])
    "a.txt" "ha" ".txt" 1 0 "ca" [('a' :: [])] [((1 : ℚ) :: [])]

/-- A concrete environment for the idempotence witness. -/
def c6Env : IndexEnv :=
  IndexEnv.mk (fun _ => some []) 32 (fun _ => "m1") (fun _ => none) (fun _ => none)
    (fun _ => none)

/-- A second, different concrete environment for the idempotence witness. -/
def c6Env2 : IndexEnv :=
  IndexEnv.mk (fun _ => none) 7 (fun _ => "m2") (fun _ => some ('q' :: []))
    (fun _ => none) (fun _ => none)

lemma pyRfind_le (s : List Char) (c : Char) : pyRfind s c ≤ (s.length : Int) - 1 := by
  unfold pyRfind
  split <;> omega

lemma pySlice_length_le (s : List Char) (a b : Int) (h : a < (s.length : Int)) :
    a + ((pySlice s a b).length : Int) ≤ (s.length : Int) := by
  simp only [pySlice, List.length_drop, List.length_take]
  split_ifs <;> omega

lemma splitStep_fst_le (content : List Char) (start : Int)
    (h : start < (content.length : Int)) :
    (splitStep content start).1 ≤ (content.length : Int) := by
  have hsl := pySlice_length_le content start
    (min (start + chunkSizeConst) (content.length : Int)) h
  have h1 := pyRfind_le (pySlice content start
    (min (start + chunkSizeConst) (content.length : Int))) '.'
  have h2 := pyRfind_le (pySlice content start
    (min (start + chunkSizeConst) (content.length : Int))) '\n'
  simp only [splitStep, chunkSizeConst] at h1 h2 hsl ⊢
  split_ifs <;> omega

/-- Once the loop is entered (`start < len(content)`), every iteration
re-enters it: the next start is `end - 200` with `end ≤ len(content)`, which
is again `< len(content)`.  Hence no amount of fuel makes the loop exit. -/
lemma splitLoop_none (content : List Char) :
    ∀ (fuel : Nat) (start : Int) (chunks : List (List Char)),
      start < (content.length : Int) → splitLoop content fuel start chunks = none := by
  intro fuel
  induction fuel with
  | zero => intro start chunks _; rfl
  | succ f ih =>
    intro start chunks h
    have hle := splitStep_fst_le content start h
    have hov : overlapSizeConst = 200 := rfl
    simp only [splitLoop]
    rw [if_pos h]
    exact ih _ _ (by omega)

lemma save_files (st : Store) (p h ft : String) (fsz : Nat) (lm : ℚ) (ch : String)
    (chunks : List (List Char)) (embs : List (List ℚ)) :
    (saveFileEmbeddings st p h ft fsz lm ch chunks embs).files =
      st.files.filter (fun f => f.filePath != p) ++
        [FileRow.mk st.nextFileId p h ft fsz lm ch] := rfl

lemma save_embeddings (st : Store) (p h ft : String) (fsz : Nat) (lm : ℚ) (ch : String)
    (chunks : List (List Char)) (embs : List (List ℚ)) :
    (saveFileEmbeddings st p h ft fsz lm ch chunks embs).embeddings =
      st.embeddings ++ (chunks.zip embs).enum.map
        (fun q => ChunkRow.mk st.nextFileId q.1 q.2.1 q.2.2) := rfl

lemma save_nextFileId (st : Store) (p h ft : String) (fsz : Nat) (lm : ℚ) (ch : String)
    (chunks : List (List Char)) (embs : List (List ℚ)) :
    (saveFileEmbeddings st p h ft fsz lm ch chunks embs).nextFileId =
      st.nextFileId + 1 := rfl

lemma find?_filter_ne (files : List FileRow) (p : String) :
    (files.filter (fun f => f.filePath != p)).find? (fun f => f.filePath == p) = none := by
  induction files with
  | nil => rfl
  | cons f fs ih =>
    by_cases h : f.filePath = p
    · simp [List.filter_cons, h, ih]
    · simp [List.filter_cons, h, List.find?_cons, ih]

lemma find?_append_none {α : Type} (l1 l2 : List α) (p : α → Bool)
    (h : l1.find? p = none) : (l1 ++ l2).find? p = l2.find? p := by
  induction l1 with
  | nil => rfl
  | cons a l ih =>
    cases hpa : p a with
    | true => rw [List.find?_cons_of_pos _ hpa] at h; cases h
    | false =>
      have hpa2 : ¬ p a = true := by simp [hpa]
      rw [List.find?_cons_of_neg _ hpa2] at h
      rw [List.cons_append, List.find?_cons_of_neg _ hpa2]
      exact ih h

lemma isFileUnchanged_save (st : Store) (p h ft : String) (fsz : Nat) (lm : ℚ)
    (ch : String) (chunks : List (List Char)) (embs : List (List ℚ)) :
    isFileUnchanged (saveFileEmbeddings st p h ft fsz lm ch chunks embs) p h = true := by
  unfold isFileUnchanged
  rw [save_files, find?_append_none _ _ _ (find?_filter_ne st.files p)]
  simp [List.find?_cons]

lemma generateEmbeddings_fail (bs : Nat) (chunks : List (List Char)) :
    generateEmbeddings (fun _ => none) bs chunks = [] := by
  unfold generateEmbeddings
  by_cases h : bs = 0
  · rw [if_pos h]
  · rw [if_neg h]
    cases chunks with
    | nil => simp [encodeBatches]
    | cons c cs => simp [encodeBatches]

lemma filterMap_filter_none {A B : Type} (f : A → Option B) (p : A → Bool)
    (h : ∀ a, p a = false → f a = none) :
    ∀ l : List A, l.filterMap f = (l.filter p).filterMap f := by
  intro l
  induction l with
  | nil => rfl
  | cons a l ih =>
    cases hp : p a with
    | true => simp [List.filter_cons, hp, List.filterMap_cons, ih]
    | false => simp [List.filter_cons, hp, List.filterMap_cons, h a hp, ih]

lemma keepRow_some_ge (q : List ℚ) (t : ℚ) (row : FileRow × ChunkRow) (r : SearchR)
    (hk : keepRow q t row = some r) : simGeQ r.score t = true := by
  unfold keepRow at hk
  cases hcs : cosineSim q row.2.embedding with
  | none =>
    rw [hcs] at hk
    exact Option.noConfusion hk
  | some s =>
    rw [hcs] at hk
    have hk2 : (if simGeQ s t = true then
        some (SearchR.mk row.1.filePath s (mkSnippet row.2.content) row.1.fileType
          row.1.lastModified row.1.fileSize row.2.chunkIndex)
      else none) = some r := hk
    by_cases hge : simGeQ s t = true
    · rw [if_pos hge] at hk2
      injection hk2 with hk3
      subst hk3
      exact hge
    · rw [if_neg hge] at hk2
      exact Option.noConfusion hk2

lemma chunksOfPath_save_nil (st : Store) (p h ft : String) (fsz : Nat) (lm : ℚ)
    (ch : String) (chunks : List (List Char))
    (hwf : ∀ e ∈ st.embeddings, e.fileId < st.nextFileId) :
    chunksOfPath (saveFileEmbeddings st p h ft fsz lm ch chunks []) p = [] := by
  unfold chunksOfPath joinRows
  apply List.filterMap_eq_nil_iff.mpr
  intro r hr
  rw [List.mem_flatMap] at hr
  obtain ⟨f, hf, hrf⟩ := hr
  rw [List.mem_map] at hrf
  obtain ⟨e, he, rfl⟩ := hrf
  rw [List.mem_filter] at he
  obtain ⟨heMem, heId⟩ := he
  rw [save_files] at hf
  rw [save_embeddings] at heMem
  simp only [List.zip_nil_right, List.enum_nil, List.map_nil, List.append_nil] at heMem
  rw [List.mem_append] at hf
  rcases hf with hf | hf
  · rw [List.mem_filter] at hf
    have : (f.filePath == p) = false := by
      have := hf.2
      simp only [bne_iff_ne, ne_eq] at this
      simp [this]
    simp [this]
  · rw [List.mem_singleton] at hf
    subst hf
    exfalso
    have hlt := hwf e heMem
    have heId2 : e.fileId = st.nextFileId := by simpa using heId
    omega

lemma simLeB_total (x y : CosVal) : simLeB x y = true ∨ simLeB y x = true := by
  unfold simLeB
  rcases le_or_lt 0 x.d with hx | hx <;> rcases le_or_lt 0 y.d with hy | hy
  · rcases le_total (x.d * x.d * y.ab) (y.d * y.d * x.ab) with h | h
    · left; rw [if_pos hx, if_pos hy]; exact decide_eq_true h
    · right; rw [if_pos hy, if_pos hx]; exact decide_eq_true h
  · right; rw [if_neg (not_le.mpr hy), if_pos hx]
  · left; rw [if_neg (not_le.mpr hx), if_pos hy]
  · rcases le_total (y.d * y.d * x.ab) (x.d * x.d * y.ab) with h | h
    · left; rw [if_neg (not_le.mpr hx), if_neg (not_le.mpr hy)]; exact decide_eq_true h
    · right; rw [if_neg (not_le.mpr hy), if_neg (not_le.mpr hx)]; exact decide_eq_true h

lemma simLeB_trans (x y z : CosVal) :
    simLeB x y = true → simLeB y z = true → simLeB x z = true := by
  have hxab := x.abPos
  have hyab := y.abPos
  have hzab := z.abPos
  intro h1 h2
  unfold simLeB at h1 h2 ⊢
  rcases le_or_lt 0 x.d with hx | hx <;> rcases le_or_lt 0 y.d with hy | hy <;>
    rcases le_or_lt 0 z.d with hz | hz
  · simp only [if_pos hx, if_pos hy, if_pos hz, decide_eq_true_eq] at h1 h2 ⊢
    have h3 : x.d * x.d * z.ab * y.ab ≤ z.d * z.d * x.ab * y.ab := by
      nlinarith [mul_le_mul_of_nonneg_right h1 (le_of_lt hzab),
        mul_le_mul_of_nonneg_right h2 (le_of_lt hxab)]
    exact (mul_le_mul_right hyab).mp h3
  · simp only [if_pos hy, if_neg (not_le.mpr hz)] at h2
    exact absurd h2 (by simp)
  · simp only [if_pos hx, if_neg (not_le.mpr hy)] at h1
    exact absurd h1 (by simp)
  · simp only [if_pos hx, if_neg (not_le.mpr hy)] at h1
    exact absurd h1 (by simp)
  · simp only [if_neg (not_le.mpr hx), if_pos hz]
  · simp only [if_pos hy, if_neg (not_le.mpr hz)] at h2
    exact absurd h2 (by simp)
  · simp only [if_neg (not_le.mpr hx), if_pos hz]
  · simp only [if_neg (not_le.mpr hx), if_neg (not_le.mpr hy), if_neg (not_le.mpr hz),
      decide_eq_true_eq] at h1 h2 ⊢
    have h3 : z.d * z.d * x.ab * y.ab ≤ x.d * x.d * z.ab * y.ab := by
      nlinarith [mul_le_mul_of_nonneg_right h1 (le_of_lt hzab),
        mul_le_mul_of_nonneg_right h2 (le_of_lt hxab)]
    exact (mul_le_mul_right hyab).mp h3

instance : IsTotal SearchR srGe :=
  ⟨fun a b => simLeB_total b.score a.score⟩

instance : IsTrans SearchR srGe :=
  ⟨fun a b c hab hbc => simLeB_trans c.score b.score a.score hbc hab⟩

/-- C1: the claim states that `_split_content` terminates on every input
with the configured parameters.  In fact for every non-empty text the loop
never terminates: when the window end reaches `len(content)` the code still
executes `start = end - overlap_size`, so `start` stays strictly below
`len(content)` forever and the `while` loop never exits. -/
theorem splitContent_diverges (content : List Char) (h : content ≠ []) (fuel : Nat) :
    splitContentFuel fuel content = none := by
  apply splitLoop_none
  have : 0 < content.length := List.length_pos.mpr h
  omega

/-- Witness for C1: the concrete two-character text "hi" already makes
`_split_content` loop forever (every fuel bound is exhausted). -/
theorem splitContent_diverges_witness :
    splitContentFuel 5 ('h' :: 'i' :: []) = none :=
  splitContent_diverges ('h' :: 'i' :: []) (by decide) 5

/-- C7: the chunking invariant (length bound, coverage, non-emptiness of the
returned chunks) fails because `_split_content` never returns on any
non-empty input; evaluated here on the specification's own example text. -/
theorem splitContent_example_diverges (fuel : Nat) :
    splitContentFuel fuel exampleSpecText = none := by
  apply splitLoop_none
  decide

/-- C8: the claim that a non-empty text shorter than `maxChunkSize` yields
exactly one chunk fails: `_split_content` never returns on such an input
(the loop re-enters with `start = len(content) - 200` forever). -/
theorem splitContent_short_input_diverges (fuel : Nat) :
    splitContentFuel fuel shortSampleText = none := by
  apply splitLoop_none
  decide

/-- C2 counterexample: re-indexing `a.txt` while the provider fails still
commits a new FileRecord with the new hash and an empty chunk set and
returns `True` (counted as indexed, not recorded as an error), contrary to
the claim that the file's indexing attempt fails as a whole. -/
theorem providerFailure_cex :
    (indexFileFromChunks c2FailEnv c2PriorStore c2NewFile ('y' :: []) [('y' :: [])]).1 = true ∧
    chunksOfPath (indexFileFromChunks c2FailEnv c2PriorStore c2NewFile
      ('y' :: []) [('y' :: [])]).2 "a.txt" = [] ∧
    isFileUnchanged (indexFileFromChunks c2FailEnv c2PriorStore c2NewFile
      ('y' :: []) [('y' :: [])]).2 "a.txt" "h2" = true := by
  with_unfolding_all decide

/-- C2 as amended: when the provider call fails, `_generate_embeddings`
returns the empty list and indexing proceeds: `_index_file` replaces the
file's record with a FileRecord owning an empty chunk set, stores the new
hash (so later runs skip the file), and returns `True` so the pipeline
counts the file as indexed and continues with the next file. -/
theorem providerFailure_commits_empty (bs : Nat) (md5c : List Char → String)
    (d1 d2 d3 : List Nat → Option (List Char)) (st : Store) (fi : FileInput)
    (content : List Char) (chunks : List (List Char))
    (hwf : ∀ e ∈ st.embeddings, e.fileId < st.nextFileId) :
    (indexFileFromChunks (IndexEnv.mk (fun _ => none) bs md5c d1 d2 d3) st fi
      content chunks).1 = true ∧
    chunksOfPath (indexFileFromChunks (IndexEnv.mk (fun _ => none) bs md5c d1 d2 d3)
      st fi content chunks).2 fi.filePath = [] ∧
    isFileUnchanged (indexFileFromChunks (IndexEnv.mk (fun _ => none) bs md5c d1 d2 d3)
      st fi content chunks).2 fi.filePath fi.fileHash = true := by
  have hg : generateEmbeddings (fun _ => none) bs chunks = [] :=
    generateEmbeddings_fail bs chunks
  refine ⟨rfl, ?_, ?_⟩
  · show chunksOfPath (saveFileEmbeddings st fi.filePath fi.fileHash fi.fileType
      fi.fileSize fi.lastModified (md5c content) chunks
      (generateEmbeddings (fun _ => none) bs chunks)) fi.filePath = []
    rw [hg]
    exact chunksOfPath_save_nil st fi.filePath fi.fileHash fi.fileType fi.fileSize
      fi.lastModified (md5c content) chunks hwf
  · show isFileUnchanged (saveFileEmbeddings st fi.filePath fi.fileHash fi.fileType
      fi.fileSize fi.lastModified (md5c content) chunks
      (generateEmbeddings (fun _ => none) bs chunks)) fi.filePath fi.fileHash = true
    exact isFileUnchanged_save st fi.filePath fi.fileHash fi.fileType fi.fileSize
      fi.lastModified (md5c content) chunks
      (generateEmbeddings (fun _ => none) bs chunks)

/-- Witness for C2's amended theorem at a fresh store and concrete file. -/
theorem providerFailure_commits_empty_witness :
    (indexFileFromChunks (IndexEnv.mk (fun _ => none) 8 (fun _ => "w")
      (fun _ => none) (fun _ => none) (fun _ => none)) emptyStore
      (FileInput.mk "w.txt" "wh" ".txt" 2 0 []) ('w' :: []) [('w' :: [])]).1 = true ∧
    chunksOfPath (indexFileFromChunks (IndexEnv.mk (fun _ => none) 8 (fun _ => "w")
      (fun _ => none) (fun _ => none) (fun _ => none)) emptyStore
      (FileInput.mk "w.txt" "wh" ".txt" 2 0 []) ('w' :: []) [('w' :: [])]).2 "w.txt" = [] ∧
    isFileUnchanged (indexFileFromChunks (IndexEnv.mk (fun _ => none) 8 (fun _ => "w")
      (fun _ => none) (fun _ => none) (fun _ => none)) emptyStore
      (FileInput.mk "w.txt" "wh" ".txt" 2 0 []) ('w' :: []) [('w' :: [])]).2 "w.txt" "wh" = true :=
  providerFailure_commits_empty 8 (fun _ => "w") (fun _ => none) (fun _ => none)
    (fun _ => none) emptyStore (FileInput.mk "w.txt" "wh" ".txt" 2 0 [])
    ('w' :: []) [('w' :: [])] (by intro e he; cases he)

/-- C3: after re-indexing the same path (two upserts of `b.md`), the
store still holds the first version's embeddings row, now owned by no
`files` row: the DELETE in `_save_file_embeddings` touches only `files`
and the declared FOREIGN KEY is neither enforced nor cascading, so
replacing a FileRecord does not cascade chunk deletion. -/
theorem upsert_leaves_orphan_chunks :
    orphanExists c3Store2 = true ∧ c3Store2.embeddings.length = 2 := by
  with_unfolding_all decide

/-- C4 counterexample: with a stored zero vector the scan loop's division
computes NaN (`none` here) — the code does produce a NaN similarity rather
than excluding the chunk from the computation, and only the subsequent
`>=` comparison (false for NaN) keeps it out of the returned results. -/
theorem zeroNorm_produces_nan :
    rowSims ((1 : ℚ) :: (0 : ℚ) :: []) c4Store = [none] ∧
    searchModel ((1 : ℚ) :: (0 : ℚ) :: []) c4Store 10 (3 / 10) = [] := by
  with_unfolding_all decide

/-- C4 as amended: `search` computes `dot / (norm * norm)` with no
zero-norm guard, producing NaN for a zero-norm stored or query vector; the
NaN fails the `similarity >= min_similarity` float comparison, so such
chunks never reach the returned results — observably, rows with a
zero-norm vector can be deleted from the scan without changing the
output. -/
theorem zeroNorm_rows_excluded (q : List ℚ) (rows : List (FileRow × ChunkRow))
    (lim : Nat) (t : ℚ) :
    searchFromRows q rows lim t =
      searchFromRows q (rows.filter
        (fun r => decide (normSq q * normSq r.2.embedding ≠ 0))) lim t := by
  unfold searchFromRows
  rw [filterMap_filter_none (keepRow q t)
    (fun r => decide (normSq q * normSq r.2.embedding ≠ 0))
    (fun r hr => by
      unfold keepRow cosineSim
      rw [dif_pos (not_not.mp (decide_eq_false_iff_not.mp hr))]) rows]

/-- C5 counterexample: two chunks with equal similarity 1 are returned in
store-scan order (`b.txt` before `a.txt`) although the claim requires ties
to be broken by file path, which would put `a.txt` first: the code sorts
only by `similarity_score` and Python's stable sort keeps scan order. -/
theorem tieBreak_not_by_path :
    (searchModel ((1 : ℚ) :: []) c5Store 10 (3 / 10)).map (fun r => r.filePath) =
      ("b.txt" :: "a.txt" :: []) ∧
    (searchModel ((1 : ℚ) :: []) c5Store 10 (3 / 10)).map (fun r => r.score.d) =
      ((1 : ℚ) :: (1 : ℚ) :: []) ∧
    (searchModel ((1 : ℚ) :: []) c5Store 10 (3 / 10)).map (fun r => r.score.ab) =
      ((1 : ℚ) :: (1 : ℚ) :: []) ∧
    "a.txt" < "b.txt" := by
  with_unfolding_all decide

/-- C5 as amended: `search` returns at most `limit` results, sorted by
non-increasing similarity, each meeting `min_similarity` — but ties keep
the store scan order (Python's sort is stable and uses only the score as
key); they are not broken by file path and chunk index. -/
theorem search_ranking_invariant (q : List ℚ) (rows : List (FileRow × ChunkRow))
    (lim : Nat) (t : ℚ) :
    (searchFromRows q rows lim t).length ≤ lim ∧
    List.Pairwise srGe (searchFromRows q rows lim t) ∧
    (searchFromRows q rows lim t).all (fun r => simGeQ r.score t) = true := by
  refine ⟨?_, ?_, ?_⟩
  · unfold searchFromRows
    simp [List.length_take]
  · unfold searchFromRows
    apply List.Pairwise.sublist (List.take_sublist _ _)
    exact List.sorted_insertionSort srGe (rows.filterMap (keepRow q t))
  · rw [List.all_eq_true]
    intro r hr
    unfold searchFromRows at hr
    have hr2 : r ∈ sortDesc (rows.filterMap (keepRow q t)) :=
      List.mem_of_mem_take hr
    have hr3 : r ∈ rows.filterMap (keepRow q t) :=
      (List.perm_insertionSort srGe _).mem_iff.mp hr2
    rw [List.mem_filterMap] at hr3
    obtain ⟨row, _, hk⟩ := hr3
    exact keepRow_some_ge q t row r hk

/-- C6: the idempotence gate of `_index_file`.  With no prior record for a
path, `_is_file_unchanged` reports "not unchanged"; after a save stored the
file's hash, a subsequent `_index_file` call for the same path and hash
returns `False` (counted as skipped) without modifying the store, and its
result is independent of the file bytes, the decoders, the provider and the
chunking fuel — the hash check runs strictly before any decoding or
chunking. -/
theorem unchanged_skip_gate (env env2 : IndexEnv) (st st0 : Store)
    (p fh h0 ft ft2 : String) (fsz fsz2 : Nat) (lm lm2 : ℚ) (ch : String)
    (chunks : List (List Char)) (embs : List (List ℚ))
    (bytes bytes2 : List Nat) (fuel fuel2 : Nat)
    (habs : st0.files.filter (fun f => f.filePath == p) = []) :
    isFileUnchanged st0 p h0 = false ∧
    indexFile env (saveFileEmbeddings st p fh ft fsz lm ch chunks embs)
      (FileInput.mk p fh ft2 fsz2 lm2 bytes) fuel
      = some (false, saveFileEmbeddings st p fh ft fsz lm ch chunks embs) ∧
    indexFile env (saveFileEmbeddings st p fh ft fsz lm ch chunks embs)
      (FileInput.mk p fh ft2 fsz2 lm2 bytes) fuel
      = indexFile env2 (saveFileEmbeddings st p fh ft fsz lm ch chunks embs)
          (FileInput.mk p fh ft2 fsz2 lm2 bytes2) fuel2 := by
  have habs2 : isFileUnchanged st0 p h0 = false := by
    unfold isFileUnchanged
    rw [List.find?_eq_none.mpr]
    intro f hf
    have := List.filter_eq_nil_iff.mp habs f hf
    simpa using this
  have hskip : ∀ (e : IndexEnv) (ft3 : String) (fsz3 : Nat) (lm3 : ℚ)
      (bytes3 : List Nat) (fuel3 : Nat),
      indexFile e (saveFileEmbeddings st p fh ft fsz lm ch chunks embs)
        (FileInput.mk p fh ft3 fsz3 lm3 bytes3) fuel3
        = some (false, saveFileEmbeddings st p fh ft fsz lm ch chunks embs) := by
    intro e ft3 fsz3 lm3 bytes3 fuel3
    unfold indexFile
    rw [if_pos]
    exact isFileUnchanged_save st p fh ft fsz lm ch chunks embs
  exact ⟨habs2, hskip env ft2 fsz2 lm2 bytes fuel,
    (hskip env ft2 fsz2 lm2 bytes fuel).trans
      (hskip env2 ft2 fsz2 lm2 bytes2 fuel2).symm⟩

/-- Witness for C6 at a fresh store, a concrete saved file and two
different environments, byte strings and fuel values. -/
theorem unchanged_skip_gate_witness :
    (emptyStore.files.filter (fun f => f.filePath == "n.md") = []) ∧
    (isFileUnchanged emptyStore "n.md" "zz" = false ∧
     indexFile c6Env (saveFileEmbeddings emptyStore "n.md" "hh" ".md" 5 0 "cc"
         [('x' :: [])] [((1 : ℚ) :: [])]) (FileInput.mk "n.md" "hh" ".md" 6 2 (65 :: [])) 3
       = some (false, saveFileEmbeddings emptyStore "n.md" "hh" ".md" 5 0 "cc"
         [('x' :: [])] [((1 : ℚ) :: [])]) ∧
     indexFile c6Env (saveFileEmbeddings emptyStore "n.md" "hh" ".md" 5 0 "cc"
         [('x' :: [])] [((1 : ℚ) :: [])]) (FileInput.mk "n.md" "hh" ".md" 6 2 (65 :: [])) 3
       = indexFile c6Env2 (saveFileEmbeddings emptyStore "n.md" "hh" ".md" 5 0 "cc"
         [('x' :: [])] [((1 : ℚ) :: [])]) (FileInput.mk "n.md" "hh" ".md" 6 2 (66 :: 67 :: [])) 9) :=
  ⟨rfl, unchanged_skip_gate c6Env c6Env2 emptyStore emptyStore "n.md" "hh" "zz" ".md" ".md"
    5 6 0 2 "cc" [('x' :: [])] [((1 : ℚ) :: [])] (65 :: []) (66 :: 67 :: []) 3 9 rfl⟩

/-- C9 counterexample: a user configuration with `overlap_size = 500` and
`chunk_size = 100` (overlap well above chunk size) is accepted by
`_load_config` without any rejection, error or clamping — the two keys are
not attributes of `EmbeddingConfig`, so they are silently dropped and the
loader returns the defaults unchanged. -/
theorem invalid_chunk_config_accepted :
    applyUserConfig defaultEmbeddingConfig
        (("chunk_size", ConfigVal.n 100) :: ("overlap_size", ConfigVal.n 500) :: []) =
      defaultEmbeddingConfig ∧ (100 : Int) ≤ 500 := by
  refine ⟨?_, by decide⟩
  simp [applyUserConfig, setConfigAttr]

/-- C9 as amended: no configuration validation exists — `_load_config`
ignores every key that is not an `EmbeddingConfig` attribute (in
particular `chunk_size` and `overlap_size`) and never rejects a
configuration; chunking nevertheless always runs with the hard-coded
`overlap_size = 200 < chunk_size = 1000` of `_split_content`, so no
indexing operation runs with overlap at or above the chunk size. -/
theorem config_not_validated_chunking_hardcoded :
    (∀ (cfg : EmbeddingConfig) (user : List (String × ConfigVal)),
      applyUserConfig cfg user =
        applyUserConfig cfg (user.filter (fun kv => isConfigAttr kv.1))) ∧
    overlapSizeConst < chunkSizeConst := by
  constructor
  · intro cfg user
    induction user generalizing cfg with
    | nil => rfl
    | cons kv rest ih =>
      unfold applyUserConfig at ih ⊢
      cases hb : isConfigAttr kv.1 with
      | true =>
        have hf : List.filter (fun kv2 => isConfigAttr kv2.1) (kv :: rest) =
            kv :: List.filter (fun kv2 => isConfigAttr kv2.1) rest := by
          simp [List.filter_cons, hb]
        rw [hf]
        simp only [List.foldl_cons]
        exact ih (setConfigAttr cfg kv)
      | false =>
        have hset : setConfigAttr cfg kv = cfg := by
          unfold isConfigAttr at hb
          simp only [Bool.or_eq_false_iff] at hb
          obtain ⟨⟨⟨⟨h1, h2⟩, h3⟩, h4⟩, h5⟩ := hb
          unfold setConfigAttr
          rw [if_neg (by simp [h1]), if_neg (by simp [h2]), if_neg (by simp [h3]),
            if_neg (by simp [h4]), if_neg (by simp [h5])]
        have hf : List.filter (fun kv2 => isConfigAttr kv2.1) (kv :: rest) =
            List.filter (fun kv2 => isConfigAttr kv2.1) rest := by
          simp [List.filter_cons, hb]
        rw [hf]
        simp only [List.foldl_cons, hset]
        exact ih cfg
  · decide

/-- C10: because the encoding fallback chain of `_read_file_content` ends
with latin-1, which decodes every byte sequence, the "no encoding
succeeded" branch is unreachable whatever the earlier decoders do; and if
no decoder maps non-empty bytes to empty text (true of the real codecs),
an empty decode result implies the file itself was empty. -/
theorem decode_fallback_total (d1 d2 d3 : List Nat → Option (List Char)) (b : List Nat)
    (h1 : ∀ s, d1 b = some s → s = [] → b = [])
    (h2 : ∀ s, d2 b = some s → s = [] → b = [])
    (h3 : ∀ s, d3 b = some s → s = [] → b = []) :
    (∃ s, readFileContentM d1 d2 d3 b = some s) ∧
    (∀ s, readFileContentM d1 d2 d3 b = some s → s = [] → b = []) := by
  unfold readFileContentM
  simp only [readContentLoop]
  cases hc1 : d1 b with
  | some s1 =>
    refine ⟨⟨s1, rfl⟩, ?_⟩
    intro s hs
    injection hs with hs2
    subst hs2
    exact h1 s1 hc1
  | none =>
    cases hc2 : d2 b with
    | some s2 =>
      refine ⟨⟨s2, rfl⟩, ?_⟩
      intro s hs
      injection hs with hs2
      subst hs2
      exact h2 s2 hc2
    | none =>
      cases hc3 : d3 b with
      | some s3 =>
        refine ⟨⟨s3, rfl⟩, ?_⟩
        intro s hs
        injection hs with hs2
        subst hs2
        exact h3 s3 hc3
      | none =>
        refine ⟨⟨latin1Decode b, rfl⟩, ?_⟩
        intro s hs hsnil
        injection hs with hs2
        subst hs2
        have : b.length = 0 := by
          have := congrArg List.length hsnil
          simpa [latin1Decode] using this
        exact List.length_eq_zero.mp this

/-- Witness for C10 with all three abstract decoders failing on the
concrete byte string `[72]`: the latin-1 tail still decodes it. -/
theorem decode_fallback_total_witness :
    (readFileContentM (fun _ => none) (fun _ => none) (fun _ => none) (72 :: [])).isSome
      = true := by
  obtain ⟨s, hs⟩ := (decode_fallback_total (fun _ => none) (fun _ => none) (fun _ => none)
    (72 :: []) (fun s h => Option.noConfusion h) (fun s h => Option.noConfusion h)
    (fun s h => Option.noConfusion h)).1
  rw [hs]
  rfl
